import Mathlib

set_option maxRecDepth 10000

/-!
Verification of the core logic of the AI study-buddy application (`app.py`):
the generation gateway (`generate_with_gemini`), the flashcard and quiz
extractors inside `generate_flashcards` / `generate_quiz`, and the pre-flight
validation of `generate_summary` / `generate_answer`.

The two extraction patterns of the source are Python regexes compiled with
`re.DOTALL | re.IGNORECASE`:

  flashcards : Question:\s*(.*?)\nAnswer:\s*(.*?)(?=\n\nQuestion:|\Z)
  quiz       : Question:\s*(.*?)\nA\)\s*(.*?)\nB\)\s*(.*?)\nC\)\s*(.*?)\nD\)\s*(.*?)\nAnswer:\s*([A-D])

Both are embedded here as explicit backtracking matchers over `List Char`:
`\s*` is a greedy character-class star that backtracks from its maximal
extent downward, `(.*?)` is a lazy star that (under DOTALL) can absorb any
character and extends one character at a time until the rest of the pattern
matches, `(?=...|\Z)` is a zero-width lookahead, and `re.findall` is the
left-to-right non-overlapping scan.  `re.IGNORECASE` is modelled as ASCII
case folding (all text involved in the claims is ASCII).
-/

/-- ASCII lower-casing; model of the case folding performed by
`re.IGNORECASE` on the ASCII patterns of the source. -/
def lowerA : Char → Char
  | 'A' => 'a' | 'B' => 'b' | 'C' => 'c' | 'D' => 'd' | 'E' => 'e' | 'F' => 'f'
  | 'G' => 'g' | 'H' => 'h' | 'I' => 'i' | 'J' => 'j' | 'K' => 'k' | 'L' => 'l'
  | 'M' => 'm' | 'N' => 'n' | 'O' => 'o' | 'P' => 'p' | 'Q' => 'q' | 'R' => 'r'
  | 'S' => 's' | 'T' => 't' | 'U' => 'u' | 'V' => 'v' | 'W' => 'w' | 'X' => 'x'
  | 'Y' => 'y' | 'Z' => 'z' | c => c

/-- ASCII upper-casing; model of Python `str.upper()` restricted to ASCII,
as applied by the source to the captured answer letter. -/
def upperA : Char → Char
  | 'a' => 'A' | 'b' => 'B' | 'c' => 'C' | 'd' => 'D' | 'e' => 'E' | 'f' => 'F'
  | 'g' => 'G' | 'h' => 'H' | 'i' => 'I' | 'j' => 'J' | 'k' => 'K' | 'l' => 'L'
  | 'm' => 'M' | 'n' => 'N' | 'o' => 'O' | 'p' => 'P' | 'q' => 'Q' | 'r' => 'R'
  | 's' => 'S' | 't' => 'T' | 'u' => 'U' | 'v' => 'V' | 'w' => 'W' | 'x' => 'X'
  | 'y' => 'Y' | 'z' => 'Z' | c => c

/-- ASCII whitespace, the characters matched by Python regex `\s` and
trimmed by `str.strip()` (for ASCII text). -/
def isSpaceCh (c : Char) : Bool :=
  c == ' ' || c == '\t' || c == '\n' || c == '\r' || c == '\x0b' || c == '\x0c'

/-- Model of Python `str.strip()` on a character list. -/
def stripL (s : List Char) : List Char :=
  ((s.dropWhile isSpaceCh).reverse.dropWhile isSpaceCh).reverse

/-- Length of the maximal leading whitespace run: the greedy extent
of `\s*`. -/
def wsCount : List Char → Nat
  | [] => 0
  | c :: rest => if isSpaceCh c then wsCount rest + 1 else 0

/-- Case-insensitive literal match: consume the pattern `p` at the front of
`s` (comparing ASCII-case-folded characters) and return the remainder, or
`none` if `s` does not start with `p` up to case. -/
def matchCI : List Char → List Char → Option (List Char)
  | [], s => some s
  | _ :: _, [] => none
  | p :: ps, c :: cs => if lowerA p = lowerA c then matchCI ps cs else none

/-- Lazy-star step of the pattern `(.*?)` followed by a literal `marker` and
a continuation `k` (the rest of the pattern): scanning left to right, the
group absorbs characters one at a time (DOTALL: any character) until a
position where the marker matches and the rest of the pattern succeeds.
Returns the captured group and the continuation result. -/
def lazyScan {α : Type} (marker : List Char) (k : List Char → Option α) :
    List Char → Option (List Char × α)
  | [] => none
  | c :: rest =>
    match matchCI marker (c :: rest) with
    | some after =>
      match k after with
      | some r => some ([], r)
      | none => (lazyScan marker k rest).map (fun p => (c :: p.1, p.2))
    | none => (lazyScan marker k rest).map (fun p => (c :: p.1, p.2))

/-- Backtracking loop of greedy `\s*`: try consuming `m` whitespace
characters first, then fewer, until the continuation `k` succeeds. -/
def wsLoop {α : Type} (k : List Char → Option α) : Nat → List Char → Option α
  | 0, s => k s
  | m + 1, s =>
    match k (s.drop (m + 1)) with
    | some r => some r
    | none => wsLoop k m s

/-- Greedy `\s*` followed by the continuation `k`: maximal whitespace run
first, backtracking one character at a time. -/
def greedyWS {α : Type} (k : List Char → Option α) (s : List Char) : Option α :=
  wsLoop k (wsCount s) s

/-- The literal `Question:` of both patterns. -/
def questionLit : List Char := ['Q', 'u', 'e', 's', 't', 'i', 'o', 'n', ':']

/-- The literal `Answer:`. -/
def ansLit : List Char := ['A', 'n', 's', 'w', 'e', 'r', ':']

/-- The pattern fragment `\nAnswer:`. -/
def answerMark : List Char := '\n' :: ansLit

/-- The lookahead literal `\n\nQuestion:` of the flashcard pattern. -/
def sepQuestionMark : List Char := '\n' :: '\n' :: questionLit

/-- The pattern fragment `\nA\)`. -/
def aMark : List Char := ['\n', 'A', ')']

/-- The pattern fragment `\nB\)`. -/
def bMark : List Char := ['\n', 'B', ')']

/-- The pattern fragment `\nC\)`. -/
def cMark : List Char := ['\n', 'C', ')']

/-- The pattern fragment `\nD\)`. -/
def dMark : List Char := ['\n', 'D', ')']

/-- The lookahead `(?=\n\nQuestion:|\Z)` driving the last lazy group of the
flashcard pattern: extend the group until `\n\nQuestion:` matches ahead or
the end of input (`\Z`) is reached.  Returns the captured group and the
(unconsumed) remainder at the lookahead position. -/
def findLook : List Char → List Char × List Char
  | [] => ([], [])
  | c :: rest =>
    match matchCI sepQuestionMark (c :: rest) with
    | some _ => ([], c :: rest)
    | none =>
      let p := findLook rest
      (c :: p.1, p.2)

/-- The tail `\s*(.*?)(?=\n\nQuestion:|\Z)` of the flashcard pattern (after
`Answer:`).  The lookahead alternative `\Z` always succeeds at the end of
input, so this never fails. -/
def flashAnswerTail (v : List Char) : Option (List Char × List Char) :=
  greedyWS (fun w => some (findLook w)) v

/-- Attempt the whole flashcard pattern at the current position.  On success
returns the two captured groups and the remainder of the text after the
match (the lookahead position). -/
def matchFlashAt (s : List Char) : Option ((List Char × List Char) × List Char) :=
  match matchCI questionLit s with
  | none => none
  | some t =>
    (greedyWS (fun u => lazyScan answerMark flashAnswerTail u) t).map
      (fun p => ((p.1, p.2.1), p.2.2))

/-- The letter class `[A-D]` under `re.IGNORECASE`. -/
def isQuizLetter (c : Char) : Bool :=
  c == 'A' || c == 'B' || c == 'C' || c == 'D' ||
  c == 'a' || c == 'b' || c == 'c' || c == 'd'

/-- The tail `\s*([A-D])` of the quiz pattern (after `Answer:`). -/
def quizAns (s : List Char) : Option (Char × List Char) :=
  greedyWS
    (fun t =>
      match t with
      | [] => none
      | c :: r => if isQuizLetter c then some (c, r) else none) s

/-- The tail of the quiz pattern after the literal `D)`:
`\s*(.*?)\nAnswer:\s*([A-D])`. -/
def quizD (s : List Char) : Option (List Char × Char × List Char) :=
  greedyWS (fun t => lazyScan answerMark quizAns t) s

/-- The tail of the quiz pattern after the literal `C)`. -/
def quizC (s : List Char) : Option (List Char × List Char × Char × List Char) :=
  greedyWS (fun t => lazyScan dMark quizD t) s

/-- The tail of the quiz pattern after the literal `B)`. -/
def quizB (s : List Char) :
    Option (List Char × List Char × List Char × Char × List Char) :=
  greedyWS (fun t => lazyScan cMark quizC t) s

/-- The tail of the quiz pattern after the literal `A)`. -/
def quizA (s : List Char) :
    Option (List Char × List Char × List Char × List Char × Char × List Char) :=
  greedyWS (fun t => lazyScan bMark quizB t) s

/-- The tail of the quiz pattern after the literal `Question:`. -/
def quizQ (s : List Char) :
    Option (List Char × List Char × List Char × List Char × List Char × Char × List Char) :=
  greedyWS (fun t => lazyScan aMark quizA t) s

/-- Attempt the whole quiz pattern at the current position.  On success
returns the six captured groups (question, four options, answer letter) and
the remainder of the text after the match. -/
def matchQuizAt (s : List Char) :
    Option (List Char × List Char × List Char × List Char × List Char × Char × List Char) :=
  match matchCI questionLit s with
  | none => none
  | some t => quizQ t

/-- A case-folded literal consumes exactly itself. -/
theorem matchCI_append (p u : List Char) : matchCI p (p ++ u) = some u := by
  induction p with
  | nil => rfl
  | cons c cs ih => simp [matchCI, ih]

/-- A successful case-insensitive literal match leaves a suffix. -/
theorem matchCI_suffix {p s r : List Char} (h : matchCI p s = some r) :
    r <:+ s := by
  induction p generalizing s with
  | nil =>
    simp [matchCI] at h
    exact h ▸ List.suffix_rfl
  | cons c cs ih =>
    cases s with
    | nil => simp [matchCI] at h
    | cons d ds =>
      simp only [matchCI] at h
      split at h
      · exact (ih h).trans (List.suffix_cons d ds)
      · exact absurd h (by simp)

/-- A successful case-insensitive literal match consumes exactly the
length of the pattern. -/
theorem matchCI_length {p s r : List Char} (h : matchCI p s = some r) :
    r.length + p.length = s.length := by
  induction p generalizing s with
  | nil =>
    simp [matchCI] at h
    simp [h]
  | cons c cs ih =>
    cases s with
    | nil => simp [matchCI] at h
    | cons d ds =>
      simp only [matchCI] at h
      split at h
      · have := ih h
        simp [List.length_cons]
        omega
      · exact absurd h (by simp)

/-- The remainder produced by `wsLoop` comes from the continuation applied
to a suffix. -/
theorem wsLoop_exists {α : Type} {k : List Char → Option α} {m : Nat}
    {s : List Char} {r : α} (h : wsLoop k m s = some r) :
    ∃ u, u <:+ s ∧ k u = some r := by
  induction m with
  | zero => exact ⟨s, List.suffix_rfl, h⟩
  | succ n ih =>
    simp only [wsLoop] at h
    split at h
    · exact ⟨s.drop (n + 1), List.drop_suffix _ _, by
        rename_i heq
        rw [heq]
        exact h⟩
    · exact ih h

/-- The remainder produced by `greedyWS` comes from the continuation applied
to a suffix. -/
theorem greedyWS_exists {α : Type} {k : List Char → Option α}
    {s : List Char} {r : α} (h : greedyWS k s = some r) :
    ∃ u, u <:+ s ∧ k u = some r :=
  wsLoop_exists h

/-- The continuation result inside a successful `lazyScan` was produced on a
suffix of the input. -/
theorem lazyScan_exists {α : Type} {marker : List Char}
    {k : List Char → Option α} {s : List Char} {p : List Char × α}
    (h : lazyScan marker k s = some p) :
    ∃ u, u <:+ s ∧ k u = some p.2 := by
  induction s generalizing p with
  | nil => simp [lazyScan] at h
  | cons c rest ih =>
    simp only [lazyScan] at h
    split at h
    · rename_i after hm
      split at h
      · rename_i r hk
        refine ⟨after, (matchCI_suffix hm), ?_⟩
        cases h
        simpa using hk
      · simp only [Option.map_eq_some'] at h
        obtain ⟨p', hp', rfl⟩ := h
        obtain ⟨u, hu, hk⟩ := ih hp'
        exact ⟨u, hu.trans (List.suffix_cons c rest), hk⟩
    · simp only [Option.map_eq_some'] at h
      obtain ⟨p', hp', rfl⟩ := h
      obtain ⟨u, hu, hk⟩ := ih hp'
      exact ⟨u, hu.trans (List.suffix_cons c rest), hk⟩

/-- The remainder at the lookahead position is a suffix of the input. -/
theorem findLook_suffix (s : List Char) : (findLook s).2 <:+ s := by
  induction s with
  | nil => simp [findLook]
  | cons c rest ih =>
    simp only [findLook]
    split
    · exact List.suffix_rfl
    · exact ih.trans (List.suffix_cons c rest)

/-- A successful flashcard match strictly consumes input: the remainder is
shorter by at least the length of `Question:`. -/
theorem matchFlashAt_length {s : List Char}
    {g : List Char × List Char} {rem : List Char}
    (h : matchFlashAt s = some (g, rem)) : rem.length + 9 ≤ s.length := by
  unfold matchFlashAt at h
  split at h
  · exact absurd h (by simp)
  · rename_i t ht
    simp only [Option.map_eq_some'] at h
    obtain ⟨p, hp, hpe⟩ := h
    obtain ⟨u, hu, hk⟩ := greedyWS_exists hp
    obtain ⟨v, hv, hk2⟩ := lazyScan_exists hk
    unfold flashAnswerTail at hk2
    obtain ⟨w, hw, hk3⟩ := greedyWS_exists hk2
    have hrem : rem = (findLook w).2 := by
      have : p.2.2 = (findLook w).2 := by
        simp only [Option.some_inj] at hk3
        rw [← hk3]
      rw [← this]
      cases hpe
      rfl
    have hsuff : rem <:+ t := by
      rw [hrem]
      exact ((findLook_suffix w).trans hw).trans (hv.trans hu)
    have h1 : rem.length ≤ t.length := hsuff.length_le
    have h2 := matchCI_length ht
    simp [questionLit] at h2
    omega

/-- A successful quiz match strictly consumes input. -/
theorem matchQuizAt_length {s : List Char}
    {m : List Char × List Char × List Char × List Char × List Char × Char × List Char}
    (h : matchQuizAt s = some m) : m.2.2.2.2.2.2.length + 9 ≤ s.length := by
  unfold matchQuizAt at h
  split at h
  · exact absurd h (by simp)
  · rename_i t ht
    unfold quizQ at h
    obtain ⟨u1, hu1, h1⟩ := greedyWS_exists h
    obtain ⟨u2, hu2, h2⟩ := lazyScan_exists h1
    unfold quizA at h2
    obtain ⟨u3, hu3, h3⟩ := greedyWS_exists h2
    obtain ⟨u4, hu4, h4⟩ := lazyScan_exists h3
    unfold quizB at h4
    obtain ⟨u5, hu5, h5⟩ := greedyWS_exists h4
    obtain ⟨u6, hu6, h6⟩ := lazyScan_exists h5
    unfold quizC at h6
    obtain ⟨u7, hu7, h7⟩ := greedyWS_exists h6
    obtain ⟨u8, hu8, h8⟩ := lazyScan_exists h7
    unfold quizD at h8
    obtain ⟨u9, hu9, h9⟩ := greedyWS_exists h8
    obtain ⟨u10, hu10, h10⟩ := lazyScan_exists h9
    unfold quizAns at h10
    obtain ⟨u11, hu11, h11⟩ := greedyWS_exists h10
    have hrem : m.2.2.2.2.2.2 <:+ u11 := by
      cases u11 with
      | nil => simp at h11
      | cons c r =>
        simp only at h11
        split at h11
        · rename_i hc
          simp only [Option.some_inj] at h11
          have : m.2.2.2.2.2.2 = r := by rw [← h11]
          rw [this]
          exact List.suffix_cons c r
        · exact absurd h11 (by simp)
    have hchain : m.2.2.2.2.2.2 <:+ t := by
      refine hrem.trans (hu11.trans ?_)
      refine hu10.trans (hu9.trans ?_)
      refine hu8.trans (hu7.trans ?_)
      refine hu6.trans (hu5.trans ?_)
      refine hu4.trans (hu3.trans ?_)
      exact hu2.trans hu1
    have h1 : m.2.2.2.2.2.2.length ≤ t.length := hchain.length_le
    have h2 := matchCI_length ht
    simp [questionLit] at h2
    omega

/-- Fuelled left-to-right non-overlapping scan of `re.findall` with the
flashcard pattern: try the pattern at each position, emit the captured
groups and continue after the match, or advance one character.  A successful
match always consumes at least one character, so fuel equal to the text
length suffices; the fuel only makes the recursion structural. -/
def flashScanF : Nat → List Char → List (List Char × List Char)
  | _, [] => []
  | 0, _ :: _ => []
  | fuel + 1, c :: rest =>
    match matchFlashAt (c :: rest) with
    | some (g, rem) => g :: flashScanF fuel rem
    | none => flashScanF fuel rest

/-- The `re.findall` scan with the flashcard pattern. -/
def flashScan (s : List Char) : List (List Char × List Char) :=
  flashScanF s.length s

/-- Fuelled `re.findall` scan with the quiz pattern. -/
def quizScanF :
    Nat → List Char → List (List Char × List Char × List Char × List Char × List Char × Char)
  | _, [] => []
  | 0, _ :: _ => []
  | fuel + 1, c :: rest =>
    match matchQuizAt (c :: rest) with
    | some (g1, g2, g3, g4, g5, ltr, rem) =>
      (g1, g2, g3, g4, g5, ltr) :: quizScanF fuel rem
    | none => quizScanF fuel rest

/-- The `re.findall` scan with the quiz pattern. -/
def quizScan (s : List Char) :
    List (List Char × List Char × List Char × List Char × List Char × Char) :=
  quizScanF s.length s

set_option synthInstance.maxSize 512 in
instance :
    DecidableEq (List Char × List Char × List Char × List Char × List Char × Char) :=
  instDecidableEqProd

/-- The fuelled flashcard scan ignores fuel beyond the text length. -/
theorem flashScanF_congr : ∀ (fuel fuel' : Nat) (s : List Char),
    s.length ≤ fuel → s.length ≤ fuel' → flashScanF fuel s = flashScanF fuel' s := by
  intro fuel
  induction fuel with
  | zero =>
    intro fuel' s h1 _
    rw [List.length_eq_zero.mp (Nat.le_zero.mp h1)]
    cases fuel' <;> rfl
  | succ n ih =>
    intro fuel' s h1 h2
    cases s with
    | nil => cases fuel' <;> rfl
    | cons c rest =>
      cases fuel' with
      | zero => simp at h2
      | succ n' =>
        simp only [List.length_cons] at h1 h2
        cases hm : matchFlashAt (c :: rest) with
        | some gr =>
          obtain ⟨g, rem⟩ := gr
          have hlen := matchFlashAt_length hm
          simp only [List.length_cons] at hlen
          simp only [flashScanF, hm]
          exact congrArg _ (ih n' rem (by omega) (by omega))
        | none =>
          simp only [flashScanF, hm]
          exact ih n' rest (by omega) (by omega)

/-- The fuelled quiz scan ignores fuel beyond the text length. -/
theorem quizScanF_congr : ∀ (fuel fuel' : Nat) (s : List Char),
    s.length ≤ fuel → s.length ≤ fuel' → quizScanF fuel s = quizScanF fuel' s := by
  intro fuel
  induction fuel with
  | zero =>
    intro fuel' s h1 _
    rw [List.length_eq_zero.mp (Nat.le_zero.mp h1)]
    cases fuel' <;> rfl
  | succ n ih =>
    intro fuel' s h1 h2
    cases s with
    | nil => cases fuel' <;> rfl
    | cons c rest =>
      cases fuel' with
      | zero => simp at h2
      | succ n' =>
        simp only [List.length_cons] at h1 h2
        cases hm : matchQuizAt (c :: rest) with
        | some gr =>
          obtain ⟨g1, g2, g3, g4, g5, ltr, rem⟩ := gr
          have hlen := matchQuizAt_length hm
          simp only [List.length_cons] at hlen
          simp only [quizScanF, hm]
          exact congrArg _ (ih n' rem (by omega) (by omega))
        | none =>
          simp only [quizScanF, hm]
          exact ih n' rest (by omega) (by omega)

/-- Outcome union of an extractor, as in the data model of the specification:
`Items` for a non-empty parse, `Empty` when the generator produced
nothing usable, `Unparsed` (carrying the raw text) when the text did not
fit the grammar. -/
inductive ExtractionOutcome (α : Type) where
  | Items : List α → ExtractionOutcome α
  | Empty : ExtractionOutcome α
  | Unparsed : String → ExtractionOutcome α
deriving DecidableEq

/-- The parsing step of `generate_flashcards` (app.py lines 83-89): find all
pattern matches, strip every captured field, and classify the result.  The
source encodes `Empty` and `Unparsed` as the two fixed failure strings of
lines 88-89; here they are the corresponding outcome constructors, with
`Unparsed` carrying the raw generator text. -/
def extractFlashcards (text : String) : ExtractionOutcome (String × String) :=
  let flashcards := (flashScan text.toList).map
    (fun p => (String.mk (stripL p.1), String.mk (stripL p.2)))
  if flashcards.isEmpty then
    if (stripL text.toList).isEmpty then ExtractionOutcome.Empty
    else ExtractionOutcome.Unparsed text
  else ExtractionOutcome.Items flashcards

/-- A quiz item as built by `generate_quiz` (app.py lines 105-108):
stripped question, options dictionary keyed "A".."D", upper-cased answer
letter. -/
structure QuizItem where
  question : String
  options : List (String × String)
  answer : String
deriving DecidableEq

/-- Build one quiz item from the six captured groups, mirroring app.py
lines 105-108: strip every captured field, key the options by letter,
upper-case the answer. -/
def mkQuizItem
    (m : List Char × List Char × List Char × List Char × List Char × Char) :
    QuizItem :=
  { question := String.mk (stripL m.1)
    options := [("A", String.mk (stripL m.2.1)), ("B", String.mk (stripL m.2.2.1)),
                ("C", String.mk (stripL m.2.2.2.1)), ("D", String.mk (stripL m.2.2.2.2.1))]
    answer := String.mk ((stripL [m.2.2.2.2.2]).map upperA) }

/-- The parsing step of `generate_quiz` (app.py lines 102-112). -/
def extractQuiz (text : String) : ExtractionOutcome QuizItem :=
  let quiz_items := (quizScan text.toList).map mkQuizItem
  if quiz_items.isEmpty then
    if (stripL text.toList).isEmpty then ExtractionOutcome.Empty
    else ExtractionOutcome.Unparsed text
  else ExtractionOutcome.Items quiz_items

/-- One candidate of a generation response; only the finish reason is
inspected by the source (compared against the name `STOP`). -/
structure Candidate where
  finish_reason : String
deriving DecidableEq

/-- The shape of a Gemini generation response as consumed by
`generate_with_gemini`: the content parts, the prompt-feedback block reason
(`none` when the feedback or its reason is absent/falsy, otherwise the
name of the reason), the candidate list, and the response text. -/
structure GenResponse where
  parts : List String
  block_reason : Option String
  candidates : List Candidate
  text : String
deriving DecidableEq

/-- The gateway `generate_with_gemini` (app.py lines 27-62).  The outcome of
the guarded remote call is the input: `Except.error e` models an exception
with message `e` raised inside the `try` block, `Except.ok resp` a returned
response object. -/
def generate_with_gemini (call : Except String GenResponse) : String :=
  match call with
  | Except.error e => "An error occurred during generation: " ++ e
  | Except.ok response =>
    if response.parts.isEmpty then
      match response.block_reason with
      | some reason => "Content generation blocked. Reason: " ++ reason
      | none =>
        match response.candidates with
        | [] => "Error: Received an empty response from the API."
        | cand :: _ =>
          if cand.finish_reason ≠ "STOP" then
            "Content generation stopped. Reason: " ++ cand.finish_reason
          else "Error: Received an empty response from the API."
    else response.text

/-- The tagged union GenerationResult of the specification. -/
inductive GenerationResult where
  | Success : String → GenerationResult
  | Blocked : String → GenerationResult
  | Stopped : String → GenerationResult
  | EmptyResp : GenerationResult
  | TransportError : String → GenerationResult
deriving DecidableEq

/-- Specification-side view of the gateway: the same branch structure as
`generate_with_gemini`, but producing the tagged `GenerationResult` instead
of a display string. -/
def genResultOf (call : Except String GenResponse) : GenerationResult :=
  match call with
  | Except.error e => GenerationResult.TransportError e
  | Except.ok response =>
    if response.parts.isEmpty then
      match response.block_reason with
      | some reason => GenerationResult.Blocked reason
      | none =>
        match response.candidates with
        | [] => GenerationResult.EmptyResp
        | cand :: _ =>
          if cand.finish_reason ≠ "STOP" then GenerationResult.Stopped cand.finish_reason
          else GenerationResult.EmptyResp
    else GenerationResult.Success response.text

/-- Boolean list-prefix test (Python `str.startswith`, case-sensitive). -/
def listStartsWith : List Char → List Char → Bool
  | [], _ => true
  | _ :: _, [] => false
  | p :: ps, c :: cs => p == c && listStartsWith ps cs

/-- Python `s.startswith(pre)`. -/
def strStartsWith (s pre : String) : Bool :=
  listStartsWith pre.toList s.toList

/-- The failure-string test applied by `generate_flashcards` and
`generate_quiz` to the gateway text (app.py lines 80 and 99). -/
def isErrorText (s : String) : Bool :=
  strStartsWith s "An error occurred" || strStartsWith s "Content generation" ||
    strStartsWith s "Error:"

/-- Function generate_summary (app.py lines 64-71), with the remote-call outcome as
a parameter. -/
def generate_summary (text : String) (call : Except String GenResponse) : String :=
  if text = "" then "Please provide some text to summarize."
  else generate_with_gemini call

/-- Function generate_answer (app.py lines 115-123). -/
def generate_answer (context question : String)
    (call : Except String GenResponse) : String :=
  if context = "" then "Please provide study material first."
  else if question = "" then "Please enter a question."
  else generate_with_gemini call

/-- Function generate_flashcards (app.py lines 73-90): pre-flight validation,
gateway call, failure-prefix passthrough, then the extraction of
`extractFlashcards` with its two failure strings.  `Sum.inl` is the source
returning a string, `Sum.inr` the source returning the flashcard list. -/
def generate_flashcards (text : String) (call : Except String GenResponse) :
    Sum String (List (String × String)) :=
  if text = "" then Sum.inl "Please provide some text to generate flashcards from."
  else
    let flashcards_text := generate_with_gemini call
    if isErrorText flashcards_text then Sum.inl flashcards_text
    else
      let flashcards := (flashScan flashcards_text.toList).map
        (fun p => (String.mk (stripL p.1), String.mk (stripL p.2)))
      if flashcards.isEmpty then
        if (stripL flashcards_text.toList).isEmpty then
          Sum.inl "The model did not generate any flashcards or the response was empty."
        else
          Sum.inl ("Could not parse flashcards from the response. Raw response:\n" ++
            flashcards_text)
      else Sum.inr flashcards

/-- Function generate_quiz (app.py lines 92-113). -/
def generate_quiz (text : String) (call : Except String GenResponse) :
    Sum String (List QuizItem) :=
  if text = "" then Sum.inl "Please provide some text to generate a quiz from."
  else
    let quiz_text := generate_with_gemini call
    if isErrorText quiz_text then Sum.inl quiz_text
    else
      let quiz_items := (quizScan quiz_text.toList).map mkQuizItem
      if quiz_items.isEmpty then
        if (stripL quiz_text.toList).isEmpty then
          Sum.inl "The model did not generate any quiz questions or the response was empty."
        else
          Sum.inl ("Could not parse quiz questions from the response. Raw response:\n" ++
            quiz_text)
      else Sum.inr quiz_items

/-- An ASCII case folding never turns a character into a newline. -/
theorem lowerA_ne_nl {c : Char} (h : c ≠ '\n') : lowerA c ≠ '\n' := by
  unfold lowerA
  split <;> first | decide | exact h

/-- A marker starting with a newline cannot match at a non-newline
character. -/
theorem matchCI_nl_cons_none {m s : List Char} {c : Char} (h : c ≠ '\n') :
    matchCI ('\n' :: m) (c :: s) = none := by
  have hl : lowerA '\n' = '\n' := by decide
  simp only [matchCI, hl]
  rw [if_neg]
  exact fun he => lowerA_ne_nl h he.symm

/-- Dropping the greedy whitespace extent is dropping leading whitespace. -/
theorem drop_wsCount (s : List Char) : s.drop (wsCount s) = s.dropWhile isSpaceCh := by
  induction s with
  | nil => rfl
  | cons c rest ih =>
    by_cases h : isSpaceCh c
    · simp [wsCount, h, List.dropWhile_cons, ih]
    · simp [wsCount, h, List.dropWhile_cons]

/-- When the continuation already succeeds at the maximal whitespace extent,
the greedy `\s*` takes it (no backtracking). -/
theorem greedyWS_first {α : Type} {k : List Char → Option α} {s : List Char}
    {r : α} (h : k (s.dropWhile isSpaceCh) = some r) : greedyWS k s = some r := by
  unfold greedyWS
  rcases hW : wsCount s with _ | m
  · have hd : s = s.dropWhile isSpaceCh := by
      have hdw := drop_wsCount s
      rw [hW] at hdw
      simpa using hdw
    show k s = some r
    rw [hd]
    exact h
  · have hd : s.drop (m + 1) = s.dropWhile isSpaceCh := by
      have hdw := drop_wsCount s
      rwa [hW] at hdw
    simp [wsLoop, hd, h]

/-- The loop of greedy whitespace fails when the continuation fails on every suffix. -/
theorem wsLoop_none {α : Type} {k : List Char → Option α} {s : List Char}
    (h : ∀ u, u <:+ s → k u = none) : ∀ m, wsLoop k m s = none := by
  intro m
  induction m with
  | zero => exact h s List.suffix_rfl
  | succ n ih => simp [wsLoop, h _ (List.drop_suffix (n + 1) s), ih]

/-- Greedy whitespace fails when the continuation fails on every suffix. -/
theorem greedyWS_none {α : Type} {k : List Char → Option α} {s : List Char}
    (h : ∀ u, u <:+ s → k u = none) : greedyWS k s = none :=
  wsLoop_none h (wsCount s)

/-- The lazy group closes at the current position as soon as the marker and
the rest of the pattern both succeed there. -/
theorem lazyScan_hit {α : Type} {marker : List Char} {k : List Char → Option α}
    {c : Char} {rest after : List Char} {r : α}
    (hm : matchCI marker (c :: rest) = some after) (hk : k after = some r) :
    lazyScan marker k (c :: rest) = some ([], r) := by
  simp [lazyScan, hm, hk]

/-- A newline-headed marker matches nowhere inside a newline-free prefix, so
the lazy group absorbs that prefix wholesale. -/
theorem lazyScan_skip_nl {α : Type} {m : List Char} {k : List Char → Option α}
    (x : List Char) (hx : ∀ c ∈ x, c ≠ '\n') (y : List Char) :
    lazyScan ('\n' :: m) k (x ++ y) =
      (lazyScan ('\n' :: m) k y).map (fun p => (x ++ p.1, p.2)) := by
  induction x with
  | nil =>
    simp only [List.nil_append]
    cases lazyScan ('\n' :: m) k y <;> simp
  | cons c xs ih =>
    have hc : c ≠ '\n' := hx c (List.mem_cons_self c xs)
    simp only [List.cons_append, lazyScan, matchCI_nl_cons_none hc, List.append_eq]
    rw [ih (fun d hd => hx d (List.mem_cons_of_mem c hd))]
    cases lazyScan ('\n' :: m) k y <;> simp

/-- The lazy group fails when the continuation fails after every marker
occurrence. -/
theorem lazyScan_none {α : Type} {marker : List Char} {k : List Char → Option α}
    (s : List Char)
    (h : ∀ u r, u <:+ s → matchCI marker u = some r → k r = none) :
    lazyScan marker k s = none := by
  induction s with
  | nil => rfl
  | cons c rest ih =>
    have ih2 := ih (fun u r hu hm => h u r (hu.trans (List.suffix_cons c rest)) hm)
    simp only [lazyScan]
    split
    · rename_i after hm
      rw [h _ _ List.suffix_rfl hm]
      rw [ih2]
      rfl
    · rw [ih2]
      rfl

/-- Dropping whitespace distributes over append when the left part contains
a non-whitespace character. -/
theorem dropWhile_ws_append {x : List Char} (hx : x.dropWhile isSpaceCh ≠ [])
    (y : List Char) :
    (x ++ y).dropWhile isSpaceCh = x.dropWhile isSpaceCh ++ y := by
  induction x with
  | nil => simp at hx
  | cons c xs ih =>
    by_cases h : isSpaceCh c = true
    · rw [List.dropWhile_cons, if_pos h] at hx
      simp only [List.cons_append, List.dropWhile_cons, h, if_true]
      exact ih hx
    · simp [List.dropWhile_cons, h]

/-- The head surviving a `dropWhile` falsifies the predicate. -/
theorem dropWhile_head_false {p : Char → Bool} {x : List Char} {c : Char}
    {r : List Char} (h : x.dropWhile p = c :: r) : p c = false := by
  induction x with
  | nil => simp at h
  | cons d ds ih =>
    by_cases hd : p d = true
    · rw [List.dropWhile_cons, if_pos hd] at h
      exact ih h
    · rw [List.dropWhile_cons, if_neg hd] at h
      cases h
      simpa using hd

/-- Dropping leading whitespace is idempotent. -/
theorem dropWhile_ws_idem (x : List Char) :
    (x.dropWhile isSpaceCh).dropWhile isSpaceCh = x.dropWhile isSpaceCh := by
  rcases hx : x.dropWhile isSpaceCh with _ | ⟨c, r⟩
  · rfl
  · rw [List.dropWhile_cons, if_neg]
    simp [dropWhile_head_false hx]

/-- Stripping ignores leading whitespace already dropped. -/
theorem stripL_dropWhile (x : List Char) :
    stripL (x.dropWhile isSpaceCh) = stripL x := by
  unfold stripL
  rw [dropWhile_ws_idem]

/-- A list with a non-whitespace character strips to a non-empty list. -/
theorem stripL_ne_nil {x : List Char} (hx : x.dropWhile isSpaceCh ≠ []) :
    stripL x ≠ [] := by
  unfold stripL
  intro h
  rw [List.reverse_eq_nil_iff, List.dropWhile_eq_nil_iff] at h
  obtain ⟨c, r, hcr⟩ := List.exists_cons_of_ne_nil hx
  have hcmem : c ∈ (x.dropWhile isSpaceCh).reverse := by simp [hcr]
  have h1 := h c hcmem
  have h2 := dropWhile_head_false hcr
  simp [h2] at h1

/-- Membership survives `dropWhile`. -/
theorem mem_of_mem_dropWhile {p : Char → Bool} {x : List Char} {c : Char}
    (h : c ∈ x.dropWhile p) : c ∈ x :=
  (List.dropWhile_sublist p).subset h

/-- A well-formed field of a rendered block: a single line (no newline) with
at least one non-whitespace character. -/
def goodField (x : List Char) : Prop :=
  (∀ c ∈ x, c ≠ '\n') ∧ x.dropWhile isSpaceCh ≠ []

instance (x : List Char) : Decidable (goodField x) :=
  decidable_of_iff ((∀ c ∈ x, c ≠ '\n') ∧ x.dropWhile isSpaceCh ≠ []) Iff.rfl

/-- Tails at which the flashcard lookahead fires immediately: end of input,
or a blank-line separator followed by the next `Question:` block. -/
def okTail (T : List Char) : Prop :=
  T = [] ∨ ∃ u, T = '\n' :: '\n' :: (questionLit ++ u)

/-- The lookahead group closes immediately at an `okTail` position. -/
theorem findLook_okTail {T : List Char} (h : okTail T) : findLook T = ([], T) := by
  rcases h with rfl | ⟨u, rfl⟩
  · rfl
  · have hm : matchCI sepQuestionMark ('\n' :: '\n' :: (questionLit ++ u)) = some u := by
      have hsep := matchCI_append sepQuestionMark u
      simpa [sepQuestionMark, List.append_assoc] using hsep
    simp [findLook, hm]

/-- The lookahead group absorbs a newline-free prefix wholesale. -/
theorem findLook_skip {x : List Char} (hx : ∀ c ∈ x, c ≠ '\n') (y : List Char) :
    findLook (x ++ y) = (x ++ (findLook y).1, (findLook y).2) := by
  induction x with
  | nil => simp
  | cons c xs ih =>
    have hc : c ≠ '\n' := hx c (List.mem_cons_self c xs)
    have hm : matchCI sepQuestionMark (c :: (xs ++ y)) = none := matchCI_nl_cons_none hc
    simp only [List.cons_append, findLook, List.append_eq, hm]
    rw [ih (fun d hd => hx d (List.mem_cons_of_mem c hd))]

/-- Evaluation of the flashcard tail after `Answer:` on a rendered answer
field followed by an `okTail`: the greedy whitespace eats the separator
space and the leading whitespace of the field, the lazy group captures up to the
lookahead position. -/
theorem flashAnswerTail_eval {a T : List Char} (ha : goodField a) (hT : okTail T) :
    flashAnswerTail (' ' :: (a ++ T)) = some (a.dropWhile isSpaceCh, T) := by
  unfold flashAnswerTail
  apply greedyWS_first
  have hd : (' ' :: (a ++ T)).dropWhile isSpaceCh = a.dropWhile isSpaceCh ++ T := by
    rw [List.dropWhile_cons, if_pos (by decide)]
    exact dropWhile_ws_append ha.2 T
  rw [hd, findLook_skip (fun c hc => ha.1 c (mem_of_mem_dropWhile hc)) T,
    findLook_okTail hT]
  simp

/-- Core evaluation step shared by all pattern tails of the shape
`\s*(.*?)<marker><rest>` applied to a rendered text
`" " ++ field ++ marker ++ rest` with a newline-free field: the greedy
whitespace takes its maximal extent, the lazy group captures the field
(minus leading whitespace), the marker matches, and the continuation runs
on `rest`. -/
theorem chainEval {α : Type} {k : List Char → Option α} {m : List Char}
    {x z : List Char} {r : α}
    (hxnl : ∀ c ∈ x, c ≠ '\n') (hxw : x.dropWhile isSpaceCh ≠ [])
    (hk : k z = some r) :
    greedyWS (fun t => lazyScan ('\n' :: m) k t) (' ' :: (x ++ '\n' :: (m ++ z))) =
      some (x.dropWhile isSpaceCh, r) := by
  apply greedyWS_first
  have hd : (' ' :: (x ++ '\n' :: (m ++ z))).dropWhile isSpaceCh
      = x.dropWhile isSpaceCh ++ ('\n' :: m) ++ z := by
    rw [List.dropWhile_cons, if_pos (by decide)]
    rw [dropWhile_ws_append hxw]
    simp
  rw [hd]
  rw [List.append_assoc]
  rw [lazyScan_skip_nl _ (fun c hc => hxnl c (mem_of_mem_dropWhile hc))]
  have hhit : lazyScan ('\n' :: m) k (('\n' :: m) ++ z) = some ([], r) := by
    have hcons : ('\n' :: m) ++ z = '\n' :: (m ++ z) := rfl
    rw [hcons]
    exact lazyScan_hit (matchCI_append ('\n' :: m) z) hk
  rw [hhit]
  simp

/-- Rendering one flashcard block `Question: <q>\nAnswer: <a>`. -/
def renderCardL (q a : List Char) : List Char :=
  questionLit ++ ' ' :: (q ++ '\n' :: (ansLit ++ ' ' :: a))

/-- Rendering flashcard blocks separated by one blank line. -/
def renderCardsL : List (List Char × List Char) → List Char
  | [] => []
  | [p] => renderCardL p.1 p.2
  | p :: q :: rest => renderCardL p.1 p.2 ++ '\n' :: '\n' :: renderCardsL (q :: rest)

/-- A non-empty render starts with the `Question:` literal. -/
theorem renderCardsL_shape (p : List Char × List Char)
    (l : List (List Char × List Char)) :
    ∃ u, renderCardsL (p :: l) = questionLit ++ u := by
  cases l with
  | nil =>
    refine ⟨' ' :: (p.1 ++ '\n' :: (ansLit ++ ' ' :: p.2)), ?_⟩
    simp [renderCardsL, renderCardL]
  | cons q rest =>
    refine ⟨' ' :: (p.1 ++ '\n' :: (ansLit ++ ' ' :: (p.2 ++ '\n' :: '\n' :: renderCardsL (q :: rest)))), ?_⟩
    simp [renderCardsL, renderCardL, List.append_assoc]

/-- Evaluation of the full flashcard pattern on one rendered block followed
by an `okTail`: both groups capture the fields minus leading whitespace,
and the match ends exactly at the tail. -/
theorem matchFlashAt_block {q a T : List Char} (hq : goodField q)
    (ha : goodField a) (hT : okTail T) :
    matchFlashAt (questionLit ++ ' ' :: (q ++ '\n' :: (ansLit ++ ' ' :: (a ++ T)))) =
      some ((q.dropWhile isSpaceCh, a.dropWhile isSpaceCh), T) := by
  unfold matchFlashAt answerMark
  simp only [matchCI_append questionLit]
  rw [chainEval hq.1 hq.2 (flashAnswerTail_eval ha hT)]
  rfl

/-- The literal `Question:` does not match at a newline. -/
theorem matchCI_questionLit_nl (s : List Char) :
    matchCI questionLit ('\n' :: s) = none := rfl

/-- The flashcard pattern cannot match at a newline. -/
theorem matchFlashAt_nl (s : List Char) : matchFlashAt ('\n' :: s) = none := by
  unfold matchFlashAt
  rw [matchCI_questionLit_nl]

/-- The quiz pattern cannot match at a newline. -/
theorem matchQuizAt_nl (s : List Char) : matchQuizAt ('\n' :: s) = none := by
  unfold matchQuizAt
  rw [matchCI_questionLit_nl]

/-- Unfolding: the scan of the empty text. -/
theorem flashScan_nil : flashScan [] = [] := rfl

/-- Unfolding: a successful match emits its groups and continues after the
match. -/
theorem flashScan_eq_cons {s : List Char} {g : List Char × List Char}
    {rem : List Char} (hne : s ≠ []) (h : matchFlashAt s = some (g, rem)) :
    flashScan s = g :: flashScan rem := by
  cases s with
  | nil => exact absurd rfl hne
  | cons c rest =>
    have hlen := matchFlashAt_length h
    simp only [List.length_cons] at hlen
    unfold flashScan
    simp only [List.length_cons, flashScanF, h]
    exact congrArg _ (flashScanF_congr _ _ rem (by omega) (le_refl _))

/-- Unfolding: on failure the scan advances one character. -/
theorem flashScan_eq_skip {c : Char} {rest : List Char}
    (h : matchFlashAt (c :: rest) = none) :
    flashScan (c :: rest) = flashScan rest := by
  unfold flashScan
  simp only [List.length_cons, flashScanF, h]

/-- Unfolding: the quiz scan of the empty text. -/
theorem quizScan_nil : quizScan [] = [] := rfl

/-- Unfolding: a successful quiz match emits its groups and continues after
the match. -/
theorem quizScan_eq_cons {s : List Char}
    {g1 g2 g3 g4 g5 : List Char} {ltr : Char} {rem : List Char} (hne : s ≠ [])
    (h : matchQuizAt s = some (g1, g2, g3, g4, g5, ltr, rem)) :
    quizScan s = (g1, g2, g3, g4, g5, ltr) :: quizScan rem := by
  cases s with
  | nil => exact absurd rfl hne
  | cons c rest =>
    have hlen := matchQuizAt_length h
    simp only [List.length_cons] at hlen
    unfold quizScan
    simp only [List.length_cons, quizScanF, h]
    exact congrArg _ (quizScanF_congr _ _ rem (by omega) (le_refl _))

/-- Unfolding: on failure the quiz scan advances one character. -/
theorem quizScan_eq_skip {c : Char} {rest : List Char}
    (h : matchQuizAt (c :: rest) = none) :
    quizScan (c :: rest) = quizScan rest := by
  unfold quizScan
  simp only [List.length_cons, quizScanF, h]

/-- The scan of a rendered sequence of well-formed flashcard blocks yields
exactly the rendered fields (minus leading whitespace), in order. -/
theorem flashScan_render (cs : List (List Char × List Char))
    (h : ∀ p ∈ cs, goodField p.1 ∧ goodField p.2) :
    flashScan (renderCardsL cs) =
      cs.map (fun p => (p.1.dropWhile isSpaceCh, p.2.dropWhile isSpaceCh)) := by
  induction cs with
  | nil => exact flashScan_nil
  | cons p rest ih =>
    have hp := h p (List.mem_cons_self p rest)
    cases rest with
    | nil =>
      have hb := matchFlashAt_block hp.1 hp.2 (Or.inl rfl)
      rw [List.append_nil] at hb
      have hre : renderCardsL [p] =
          questionLit ++ ' ' :: (p.1 ++ '\n' :: (ansLit ++ ' ' :: p.2)) := by
        simp [renderCardsL, renderCardL]
      rw [hre, flashScan_eq_cons (by simp [questionLit]) hb, flashScan_nil]
      simp
    | cons q rest2 =>
      obtain ⟨u, hu⟩ := renderCardsL_shape q rest2
      have hT : okTail ('\n' :: '\n' :: renderCardsL (q :: rest2)) := by
        right
        exact ⟨u, by rw [hu]⟩
      have hb := matchFlashAt_block hp.1 hp.2 hT
      have hre : renderCardsL (p :: q :: rest2) =
          questionLit ++ ' ' :: (p.1 ++ '\n' ::
            (ansLit ++ ' ' :: (p.2 ++ '\n' :: '\n' :: renderCardsL (q :: rest2)))) := by
        simp [renderCardsL, renderCardL, List.append_assoc]
      rw [hre, flashScan_eq_cons (by simp [questionLit]) hb]
      rw [flashScan_eq_skip (matchFlashAt_nl _), flashScan_eq_skip (matchFlashAt_nl _)]
      rw [ih (fun x hx => h x (List.mem_cons_of_mem p hx))]
      simp

/-- An answer letter is not whitespace. -/
theorem quizLetter_not_ws {c : Char} (h : isQuizLetter c = true) :
    isSpaceCh c = false := by
  simp [isQuizLetter, or_assoc] at h
  rcases h with h | h | h | h | h | h | h | h <;> subst h <;> decide

/-- An answer letter is not a newline. -/
theorem quizLetter_ne_nl {c : Char} (h : isQuizLetter c = true) : c ≠ '\n' := by
  intro he
  subst he
  exact absurd h (by decide)

/-- Evaluation of the quiz tail `\s*([A-D])` on a rendered answer
`" " ++ letter ++ T`. -/
theorem quizAns_eval {ltr : Char} (T : List Char) (hl : isQuizLetter ltr = true) :
    quizAns (' ' :: ltr :: T) = some (ltr, T) := by
  unfold quizAns
  apply greedyWS_first
  have hd : (' ' :: ltr :: T).dropWhile isSpaceCh = ltr :: T := by
    rw [List.dropWhile_cons, if_pos (by decide), List.dropWhile_cons,
      if_neg (by simp [quizLetter_not_ws hl])]
  rw [hd]
  simp [hl]

/-- Evaluation of the quiz tail after `D)` on a rendered option and answer
line. -/
theorem quizD_eval {d T : List Char} {ltr : Char} (hd : goodField d)
    (hl : isQuizLetter ltr = true) :
    quizD (' ' :: (d ++ '\n' :: (ansLit ++ ' ' :: ltr :: T))) =
      some (d.dropWhile isSpaceCh, ltr, T) := by
  unfold quizD answerMark
  exact chainEval hd.1 hd.2 (quizAns_eval T hl)

/-- Evaluation of the quiz tail after `C)`. -/
theorem quizC_eval {c d T : List Char} {ltr : Char} (hc : goodField c)
    (hd : goodField d) (hl : isQuizLetter ltr = true) :
    quizC (' ' :: (c ++ '\n' :: (['D', ')'] ++ ' ' :: (d ++ '\n' ::
        (ansLit ++ ' ' :: ltr :: T))))) =
      some (c.dropWhile isSpaceCh, d.dropWhile isSpaceCh, ltr, T) := by
  unfold quizC dMark
  exact chainEval hc.1 hc.2 (quizD_eval hd hl)

/-- Evaluation of the quiz tail after `B)`. -/
theorem quizB_eval {b c d T : List Char} {ltr : Char} (hb : goodField b)
    (hc : goodField c) (hd : goodField d) (hl : isQuizLetter ltr = true) :
    quizB (' ' :: (b ++ '\n' :: (['C', ')'] ++ ' ' :: (c ++ '\n' ::
        (['D', ')'] ++ ' ' :: (d ++ '\n' :: (ansLit ++ ' ' :: ltr :: T))))))) =
      some (b.dropWhile isSpaceCh, c.dropWhile isSpaceCh, d.dropWhile isSpaceCh,
        ltr, T) := by
  unfold quizB cMark
  exact chainEval hb.1 hb.2 (quizC_eval hc hd hl)

/-- Evaluation of the quiz tail after `A)`. -/
theorem quizA_eval {a b c d T : List Char} {ltr : Char} (ha : goodField a)
    (hb : goodField b) (hc : goodField c) (hd : goodField d)
    (hl : isQuizLetter ltr = true) :
    quizA (' ' :: (a ++ '\n' :: (['B', ')'] ++ ' ' :: (b ++ '\n' ::
        (['C', ')'] ++ ' ' :: (c ++ '\n' :: (['D', ')'] ++ ' ' :: (d ++ '\n' ::
        (ansLit ++ ' ' :: ltr :: T))))))))) =
      some (a.dropWhile isSpaceCh, b.dropWhile isSpaceCh, c.dropWhile isSpaceCh,
        d.dropWhile isSpaceCh, ltr, T) := by
  unfold quizA bMark
  exact chainEval ha.1 ha.2 (quizB_eval hb hc hd hl)

/-- Evaluation of the quiz tail after `Question:`. -/
theorem quizQ_eval {q a b c d T : List Char} {ltr : Char} (hq : goodField q)
    (ha : goodField a) (hb : goodField b) (hc : goodField c) (hd : goodField d)
    (hl : isQuizLetter ltr = true) :
    quizQ (' ' :: (q ++ '\n' :: (['A', ')'] ++ ' ' :: (a ++ '\n' ::
        (['B', ')'] ++ ' ' :: (b ++ '\n' :: (['C', ')'] ++ ' ' :: (c ++ '\n' ::
        (['D', ')'] ++ ' ' :: (d ++ '\n' :: (ansLit ++ ' ' :: ltr :: T))))))))))) =
      some (q.dropWhile isSpaceCh, a.dropWhile isSpaceCh, b.dropWhile isSpaceCh,
        c.dropWhile isSpaceCh, d.dropWhile isSpaceCh, ltr, T) := by
  unfold quizQ aMark
  exact chainEval hq.1 hq.2 (quizA_eval ha hb hc hd hl)

/-- Evaluation of the full quiz pattern on one rendered well-formed block
followed by an arbitrary tail: all six groups capture the fields of the block and
the match ends exactly at the tail (the quiz pattern has no lookahead). -/
theorem matchQuizAt_block {q a b c d T : List Char} {ltr : Char}
    (hq : goodField q) (ha : goodField a) (hb : goodField b) (hc : goodField c)
    (hd : goodField d) (hl : isQuizLetter ltr = true) :
    matchQuizAt (questionLit ++ ' ' :: (q ++ '\n' :: (['A', ')'] ++ ' ' ::
        (a ++ '\n' :: (['B', ')'] ++ ' ' :: (b ++ '\n' :: (['C', ')'] ++ ' ' ::
        (c ++ '\n' :: (['D', ')'] ++ ' ' :: (d ++ '\n' ::
        (ansLit ++ ' ' :: ltr :: T))))))))))) =
      some (q.dropWhile isSpaceCh, a.dropWhile isSpaceCh, b.dropWhile isSpaceCh,
        c.dropWhile isSpaceCh, d.dropWhile isSpaceCh, ltr, T) := by
  unfold matchQuizAt
  simp only [matchCI_append questionLit]
  exact quizQ_eval hq ha hb hc hd hl

/-- Source fields of one well-formed quiz block. -/
structure QuizSrc where
  q : List Char
  a : List Char
  b : List Char
  c : List Char
  d : List Char
  ltr : Char

/-- All fields of a quiz block are well formed and the answer is a quiz
letter. -/
def goodSrc (z : QuizSrc) : Prop :=
  goodField z.q ∧ goodField z.a ∧ goodField z.b ∧ goodField z.c ∧
    goodField z.d ∧ isQuizLetter z.ltr = true

instance (z : QuizSrc) : Decidable (goodSrc z) :=
  decidable_of_iff (goodField z.q ∧ goodField z.a ∧ goodField z.b ∧ goodField z.c ∧
    goodField z.d ∧ isQuizLetter z.ltr = true) Iff.rfl

/-- Rendering one well-formed quiz block
`Question: <q>\nA) <a>\nB) <b>\nC) <c>\nD) <d>\nAnswer: <letter>`. -/
def renderQuizBlockL (z : QuizSrc) : List Char :=
  questionLit ++ ' ' :: (z.q ++ '\n' :: (['A', ')'] ++ ' ' :: (z.a ++ '\n' ::
    (['B', ')'] ++ ' ' :: (z.b ++ '\n' :: (['C', ')'] ++ ' ' :: (z.c ++ '\n' ::
    (['D', ')'] ++ ' ' :: (z.d ++ '\n' :: (ansLit ++ [' ', z.ltr]))))))))))

/-- Rendering quiz blocks separated by one blank line. -/
def renderQuizBlocksL : List QuizSrc → List Char
  | [] => []
  | [z] => renderQuizBlockL z
  | z :: y :: rest => renderQuizBlockL z ++ '\n' :: '\n' :: renderQuizBlocksL (y :: rest)

/-- Rendering a quiz block whose `C)` option line is missing:
`Question: <q>\nA) <a>\nB) <b>\nD) <d>\nAnswer: <letter>`. -/
def renderQuizBadL (q a b d : List Char) (ltr : Char) : List Char :=
  questionLit ++ ' ' :: (q ++ '\n' :: (['A', ')'] ++ ' ' :: (a ++ '\n' ::
    (['B', ')'] ++ ' ' :: (b ++ '\n' :: (['D', ')'] ++ ' ' :: (d ++ '\n' ::
    (ansLit ++ [' ', ltr]))))))))

/-- Appending a tail to a rendered quiz block pushes the tail into the
answer-letter position. -/
theorem renderQuizBlockL_append (z : QuizSrc) (T : List Char) :
    renderQuizBlockL z ++ T =
      questionLit ++ ' ' :: (z.q ++ '\n' :: (['A', ')'] ++ ' ' :: (z.a ++ '\n' ::
        (['B', ')'] ++ ' ' :: (z.b ++ '\n' :: (['C', ')'] ++ ' ' :: (z.c ++ '\n' ::
        (['D', ')'] ++ ' ' :: (z.d ++ '\n' ::
        (ansLit ++ ' ' :: z.ltr :: T)))))))))) := by
  simp [renderQuizBlockL, List.append_assoc]

/-- Strings with no occurrence of the case-folded `marker` at any suffix. -/
def noOccP (marker s : List Char) : Prop :=
  ∀ u, u <:+ s → matchCI marker u = none

/-- Marker absence restricts to suffixes. -/
theorem noOccP_suffix {marker s t : List Char} (h : noOccP marker s)
    (ht : t <:+ s) : noOccP marker t :=
  fun u hu => h u (hu.trans ht)

/-- Extending a marker-free string by a known-safe head. -/
theorem noOccP_cons {marker s : List Char} {c : Char}
    (h1 : matchCI marker (c :: s) = none) (h2 : noOccP marker s) :
    noOccP marker (c :: s) := by
  intro u hu
  rcases List.suffix_cons_iff.mp hu with rfl | hu2
  · exact h1
  · exact h2 u hu2

/-- The empty string has no marker occurrence (for a non-empty marker). -/
theorem noOccP_nil {m : List Char} {c : Char} : noOccP (c :: m) [] := by
  intro u hu
  rw [List.suffix_nil.mp hu]
  rfl

/-- A newline-free string has no occurrence of a newline-headed marker. -/
theorem noOccP_nlfree {m x : List Char} (hx : ∀ c ∈ x, c ≠ '\n') :
    noOccP ('\n' :: m) x := by
  induction x with
  | nil => exact noOccP_nil
  | cons c xs ih =>
    exact noOccP_cons (matchCI_nl_cons_none (hx c (List.mem_cons_self c xs)))
      (ih (fun d hd => hx d (List.mem_cons_of_mem c hd)))

/-- Prepending a newline-free prefix preserves the absence of a
newline-headed marker. -/
theorem noOccP_append_nlfree {m x y : List Char} (hx : ∀ c ∈ x, c ≠ '\n')
    (hy : noOccP ('\n' :: m) y) : noOccP ('\n' :: m) (x ++ y) := by
  induction x with
  | nil => simpa using hy
  | cons c xs ih =>
    exact noOccP_cons (matchCI_nl_cons_none (hx c (List.mem_cons_self c xs)))
      (ih (fun d hd => hx d (List.mem_cons_of_mem c hd)))

/-- The marker `\nC)` fails when the character after the newline does not
case-fold to `c`. -/
theorem matchCI_cMark_two {c2 : Char} (h : lowerA c2 ≠ 'c') (y : List Char) :
    matchCI cMark ('\n' :: c2 :: y) = none := by
  unfold cMark
  simp only [matchCI, if_true]
  rw [if_neg]
  intro he
  exact h (by rw [← he]; decide)

/-- The lazy group fails outright when its marker occurs nowhere. -/
theorem lazyScan_noOcc {α : Type} {marker s : List Char}
    {k : List Char → Option α} (h : noOccP marker s) :
    lazyScan marker k s = none := by
  apply lazyScan_none
  intro u r hu hm
  rw [h u hu] at hm
  cases hm

/-- Without any `\nC)` occurrence the quiz tail after `B)` fails. -/
theorem quizB_noOcc {s : List Char} (h : noOccP cMark s) : quizB s = none := by
  unfold quizB
  apply greedyWS_none
  intro u hu
  exact lazyScan_noOcc (noOccP_suffix h hu)

/-- Without any `\nC)` occurrence the quiz tail after `A)` fails. -/
theorem quizA_noOcc {s : List Char} (h : noOccP cMark s) : quizA s = none := by
  unfold quizA
  apply greedyWS_none
  intro u hu
  apply lazyScan_none
  intro v r hv hm
  exact quizB_noOcc (noOccP_suffix h (((matchCI_suffix hm).trans hv).trans hu))

/-- Without any `\nC)` occurrence the quiz tail after `Question:` fails. -/
theorem quizQ_noOcc {s : List Char} (h : noOccP cMark s) : quizQ s = none := by
  unfold quizQ
  apply greedyWS_none
  intro u hu
  apply lazyScan_none
  intro v r hv hm
  exact quizA_noOcc (noOccP_suffix h (((matchCI_suffix hm).trans hv).trans hu))

/-- Without any `\nC)` occurrence the quiz pattern cannot match. -/
theorem matchQuizAt_noOcc {s : List Char} (h : noOccP cMark s) :
    matchQuizAt s = none := by
  unfold matchQuizAt
  split
  · rfl
  · rename_i t ht
    exact quizQ_noOcc (noOccP_suffix h (matchCI_suffix ht))

/-- Without any `\nC)` occurrence the quiz scan finds nothing. -/
theorem quizScan_noOcc {s : List Char} (h : noOccP cMark s) : quizScan s = [] := by
  induction s with
  | nil => exact quizScan_nil
  | cons c rest ih =>
    rw [quizScan_eq_skip (matchQuizAt_noOcc h)]
    exact ih (noOccP_suffix h (List.suffix_cons c rest))

/-- A rendered block missing its `C)` line contains no `\nC)` occurrence:
every newline in it is followed by `A`, `B`, `D` or the `A` of `Answer:`. -/
theorem renderQuizBadL_noOcc {q a b d : List Char} {ltr : Char}
    (hq : ∀ c ∈ q, c ≠ '\n') (ha : ∀ c ∈ a, c ≠ '\n') (hb : ∀ c ∈ b, c ≠ '\n')
    (hd : ∀ c ∈ d, c ≠ '\n') (hl : isQuizLetter ltr = true) :
    noOccP cMark (renderQuizBadL q a b d ltr) := by
  have hltr : ∀ c ∈ [ltr], c ≠ '\n' := by
    intro c hc
    rw [List.mem_singleton.mp hc]
    exact quizLetter_ne_nl hl
  have n1 : noOccP cMark (ansLit ++ [' ', ltr]) :=
    noOccP_append_nlfree (by decide)
      (noOccP_append_nlfree (m := ['C', ')']) (x := [' ']) (y := [ltr]) (by decide)
        (noOccP_nlfree hltr))
  have n2 : noOccP cMark ('\n' :: (ansLit ++ [' ', ltr])) :=
    noOccP_cons (matchCI_cMark_two (by decide) _) n1
  have n3 : noOccP cMark (d ++ '\n' :: (ansLit ++ [' ', ltr])) :=
    noOccP_append_nlfree hd n2
  have n4 : noOccP cMark (['D', ')'] ++ ' ' ::
      (d ++ '\n' :: (ansLit ++ [' ', ltr]))) :=
    noOccP_append_nlfree (m := ['C', ')']) (x := ['D', ')', ' ']) (by decide) n3
  have n5 : noOccP cMark ('\n' :: (['D', ')'] ++ ' ' ::
      (d ++ '\n' :: (ansLit ++ [' ', ltr])))) :=
    noOccP_cons (matchCI_cMark_two (by decide) _) n4
  have n6 : noOccP cMark (b ++ '\n' :: (['D', ')'] ++ ' ' ::
      (d ++ '\n' :: (ansLit ++ [' ', ltr])))) :=
    noOccP_append_nlfree hb n5
  have n7 : noOccP cMark (['B', ')'] ++ ' ' :: (b ++ '\n' :: (['D', ')'] ++ ' ' ::
      (d ++ '\n' :: (ansLit ++ [' ', ltr]))))) :=
    noOccP_append_nlfree (m := ['C', ')']) (x := ['B', ')', ' ']) (by decide) n6
  have n8 : noOccP cMark ('\n' :: (['B', ')'] ++ ' ' :: (b ++ '\n' ::
      (['D', ')'] ++ ' ' :: (d ++ '\n' :: (ansLit ++ [' ', ltr])))))) :=
    noOccP_cons (matchCI_cMark_two (by decide) _) n7
  have n9 : noOccP cMark (a ++ '\n' :: (['B', ')'] ++ ' ' :: (b ++ '\n' ::
      (['D', ')'] ++ ' ' :: (d ++ '\n' :: (ansLit ++ [' ', ltr])))))) :=
    noOccP_append_nlfree ha n8
  have n10 : noOccP cMark (['A', ')'] ++ ' ' :: (a ++ '\n' :: (['B', ')'] ++ ' ' ::
      (b ++ '\n' :: (['D', ')'] ++ ' ' :: (d ++ '\n' ::
      (ansLit ++ [' ', ltr]))))))) :=
    noOccP_append_nlfree (m := ['C', ')']) (x := ['A', ')', ' ']) (by decide) n9
  have n11 : noOccP cMark ('\n' :: (['A', ')'] ++ ' ' :: (a ++ '\n' ::
      (['B', ')'] ++ ' ' :: (b ++ '\n' :: (['D', ')'] ++ ' ' :: (d ++ '\n' ::
      (ansLit ++ [' ', ltr])))))))) :=
    noOccP_cons (matchCI_cMark_two (by decide) _) n10
  have n12 : noOccP cMark (q ++ '\n' :: (['A', ')'] ++ ' ' :: (a ++ '\n' ::
      (['B', ')'] ++ ' ' :: (b ++ '\n' :: (['D', ')'] ++ ' ' :: (d ++ '\n' ::
      (ansLit ++ [' ', ltr])))))))) :=
    noOccP_append_nlfree hq n11
  exact noOccP_append_nlfree (m := ['C', ')'])
    (x := ['Q', 'u', 'e', 's', 't', 'i', 'o', 'n', ':', ' ']) (by decide) n12

/-- The quiz scan over rendered well-formed blocks followed by a blank line
and an unmatchable tail yields exactly the block fields in order. -/
theorem quizScan_blocks_tail (zs : List QuizSrc) (h : ∀ z ∈ zs, goodSrc z)
    (T : List Char) (hT : quizScan T = []) :
    quizScan (renderQuizBlocksL zs ++ '\n' :: '\n' :: T) =
      zs.map (fun z => (z.q.dropWhile isSpaceCh, z.a.dropWhile isSpaceCh,
        z.b.dropWhile isSpaceCh, z.c.dropWhile isSpaceCh,
        z.d.dropWhile isSpaceCh, z.ltr)) := by
  induction zs with
  | nil =>
    rw [show renderQuizBlocksL [] ++ '\n' :: '\n' :: T = '\n' :: '\n' :: T by
      simp [renderQuizBlocksL]]
    rw [quizScan_eq_skip (matchQuizAt_nl _), quizScan_eq_skip (matchQuizAt_nl _), hT]
    rfl
  | cons z rest ih =>
    have hz := h z (List.mem_cons_self z rest)
    obtain ⟨hzq, hza, hzb, hzc, hzd, hzl⟩ := hz
    cases rest with
    | nil =>
      rw [show renderQuizBlocksL [z] ++ '\n' :: '\n' :: T =
          renderQuizBlockL z ++ '\n' :: '\n' :: T by simp [renderQuizBlocksL]]
      rw [renderQuizBlockL_append]
      rw [quizScan_eq_cons (by simp [questionLit])
        (matchQuizAt_block hzq hza hzb hzc hzd hzl)]
      rw [quizScan_eq_skip (matchQuizAt_nl _), quizScan_eq_skip (matchQuizAt_nl _), hT]
      rfl
    | cons y rest2 =>
      have hre : renderQuizBlocksL (z :: y :: rest2) ++ '\n' :: '\n' :: T =
          renderQuizBlockL z ++ '\n' :: '\n' ::
            (renderQuizBlocksL (y :: rest2) ++ '\n' :: '\n' :: T) := by
        simp [renderQuizBlocksL, List.append_assoc]
      rw [hre, renderQuizBlockL_append]
      rw [quizScan_eq_cons (by simp [questionLit])
        (matchQuizAt_block hzq hza hzb hzc hzd hzl)]
      rw [quizScan_eq_skip (matchQuizAt_nl _), quizScan_eq_skip (matchQuizAt_nl _)]
      rw [ih (fun x hx => h x (List.mem_cons_of_mem z hx))]
      rfl

/-- A single non-whitespace character strips to itself. -/
theorem stripL_singleton {c : Char} (h : isSpaceCh c = false) :
    stripL [c] = [c] := by
  simp [stripL, List.dropWhile, h]

/-- Extraction on any text rendering a sequence of well-formed flashcard
blocks: exactly the stripped rendered pairs, in order. -/
theorem extractFlashcards_eq_items {text : String}
    (cs : List (List Char × List Char)) (htl : text.toList = renderCardsL cs)
    (hne : cs ≠ []) (h : ∀ p ∈ cs, goodField p.1 ∧ goodField p.2) :
    extractFlashcards text =
      ExtractionOutcome.Items (cs.map
        (fun p => (String.mk (stripL p.1), String.mk (stripL p.2)))) := by
  unfold extractFlashcards
  rw [htl, flashScan_render cs h, List.map_map]
  have hmap : cs.map ((fun p => (String.mk (stripL p.1), String.mk (stripL p.2))) ∘
        (fun p => (p.1.dropWhile isSpaceCh, p.2.dropWhile isSpaceCh))) =
      cs.map (fun p => (String.mk (stripL p.1), String.mk (stripL p.2))) := by
    apply List.map_congr_left
    intro p _
    simp [Function.comp, stripL_dropWhile]
  rw [hmap, if_neg]
  simp [List.isEmpty_iff, hne]

/-- Executable check that a marker occurs nowhere in a text. -/
def noOccB (marker : List Char) : List Char → Bool
  | [] => true
  | c :: rest => !(matchCI marker (c :: rest)).isSome && noOccB marker rest

/-- The executable no-occurrence check implies the propositional one. -/
theorem noOccB_noOccP {c : Char} {m s : List Char}
    (h : noOccB (c :: m) s = true) : noOccP (c :: m) s := by
  induction s with
  | nil => exact noOccP_nil
  | cons d rest ih =>
    simp only [noOccB, Bool.and_eq_true, Bool.not_eq_true'] at h
    exact noOccP_cons (Option.not_isSome_iff_eq_none.mp (by simp [h.1])) (ih h.2)

/-- Without any `\nAnswer:` occurrence the flashcard pattern cannot match:
the `Answer:` marker must be immediately preceded by a newline. -/
theorem matchFlashAt_noOcc {s : List Char} (h : noOccP answerMark s) :
    matchFlashAt s = none := by
  unfold matchFlashAt
  split
  · rfl
  · rename_i t ht
    rw [greedyWS_none]
    · rfl
    · intro u hu
      exact lazyScan_noOcc (noOccP_suffix h ((hu.trans (matchCI_suffix ht))))

/-- Without any `\nAnswer:` occurrence the flashcard scan finds nothing. -/
theorem flashScan_noOcc {s : List Char} (h : noOccP answerMark s) :
    flashScan s = [] := by
  induction s with
  | nil => exact flashScan_nil
  | cons c rest ih =>
    rw [flashScan_eq_skip (matchFlashAt_noOcc h)]
    exact ih (noOccP_suffix h (List.suffix_cons c rest))

/-- The quiz item produced from the rendered fields of a well-formed
block. -/
def quizItemOfSrc (z : QuizSrc) : QuizItem :=
  { question := String.mk (stripL z.q)
    options := [("A", String.mk (stripL z.a)), ("B", String.mk (stripL z.b)),
                ("C", String.mk (stripL z.c)), ("D", String.mk (stripL z.d))]
    answer := String.mk [upperA z.ltr] }

/-- Quiz extraction on well-formed blocks followed by a blank line and a
final block whose `C)` line is missing: the malformed block is dropped and
every well-formed block is recovered. -/
theorem extractQuiz_blocks_badlast (zs : List QuizSrc) (hne : zs ≠ [])
    (h : ∀ z ∈ zs, goodSrc z) {q a b d : List Char} {ltr : Char}
    (hq : ∀ c ∈ q, c ≠ '\n') (ha : ∀ c ∈ a, c ≠ '\n') (hb : ∀ c ∈ b, c ≠ '\n')
    (hd : ∀ c ∈ d, c ≠ '\n') (hl : isQuizLetter ltr = true) :
    extractQuiz (String.mk (renderQuizBlocksL zs ++ '\n' :: '\n' ::
        renderQuizBadL q a b d ltr)) =
      ExtractionOutcome.Items (zs.map quizItemOfSrc) := by
  unfold extractQuiz
  have htl : (String.mk (renderQuizBlocksL zs ++ '\n' :: '\n' ::
      renderQuizBadL q a b d ltr)).toList =
      renderQuizBlocksL zs ++ '\n' :: '\n' :: renderQuizBadL q a b d ltr := rfl
  rw [htl, quizScan_blocks_tail zs h _
    (quizScan_noOcc (renderQuizBadL_noOcc hq ha hb hd hl)), List.map_map]
  have hmap : zs.map (mkQuizItem ∘ (fun z => (z.q.dropWhile isSpaceCh,
      z.a.dropWhile isSpaceCh, z.b.dropWhile isSpaceCh, z.c.dropWhile isSpaceCh,
      z.d.dropWhile isSpaceCh, z.ltr))) = zs.map quizItemOfSrc := by
    apply List.map_congr_left
    intro z hz
    have hzl := (h z hz).2.2.2.2.2
    simp [Function.comp, mkQuizItem, quizItemOfSrc, stripL_dropWhile,
      stripL_singleton (quizLetter_not_ws hzl)]
  rw [hmap, if_neg]
  simp [List.isEmpty_iff, hne]

/-- Rendering one flashcard into the expected grammar, at string level. -/
def renderCard (c : String × String) : String :=
  "Question: " ++ c.1 ++ "\nAnswer: " ++ c.2

/-- Rendering flashcards into the expected grammar, blocks separated by one
blank line, at string level. -/
def renderCards : List (String × String) → String
  | [] => ""
  | [c] => renderCard c
  | c :: c2 :: rest => renderCard c ++ "\n\n" ++ renderCards (c2 :: rest)

/-- The string-level render agrees with the character-level one. -/
theorem renderCards_toList (cs : List (String × String)) :
    (renderCards cs).toList =
      renderCardsL (cs.map (fun p => (p.1.toList, p.2.toList))) := by
  induction cs with
  | nil => rfl
  | cons c rest ih =>
    cases rest with
    | nil =>
      show ("Question: " ++ c.1 ++ "\nAnswer: " ++ c.2).data =
        renderCardL c.1.toList c.2.toList
      simp [String.data_append, renderCardL, questionLit, ansLit, String.toList,
        List.append_assoc]
    | cons c2 rest2 =>
      have ih2 : (renderCards (c2 :: rest2)).data =
          renderCardsL ((c2.1.toList, c2.2.toList) ::
            rest2.map (fun p => (p.1.toList, p.2.toList))) := ih
      show (renderCard c ++ "\n\n" ++ renderCards (c2 :: rest2)).data = _
      simp only [String.data_append, ih2]
      simp [renderCard, String.data_append, renderCardsL, renderCardL, questionLit,
        ansLit, String.toList, List.append_assoc]

/-- A prefix of a list is still a prefix after extending the list. -/
theorem listStartsWith_extend : ∀ (p x y : List Char),
    listStartsWith p x = true → listStartsWith p (x ++ y) = true := by
  intro p
  induction p with
  | nil => intro x y _; rfl
  | cons c cs ih =>
    intro x y h
    cases x with
    | nil => exact absurd h (by simp [listStartsWith])
    | cons d ds =>
      simp only [listStartsWith, Bool.and_eq_true] at h ⊢
      exact ⟨h.1, ih ds y h.2⟩

/-- Any blocked-content message passes the failure-string test of the
extractor callers. -/
theorem isErrorText_blocked (r : String) :
    isErrorText ("Content generation blocked. Reason: " ++ r) = true := by
  unfold isErrorText strStartsWith
  have h : listStartsWith "Content generation".toList
      ("Content generation blocked. Reason: ".data ++ r.data) = true :=
    listStartsWith_extend _ _ _ (by decide)
  have h2 : ("Content generation blocked. Reason: " ++ r).toList =
      "Content generation blocked. Reason: ".data ++ r.data :=
    String.data_append _ _
  rw [h2, h]
  simp

/-- The letter captured by the quiz answer tail satisfies the `[A-D]`
class. -/
theorem quizAns_letter {s : List Char} {ltr : Char} {rem : List Char}
    (h : quizAns s = some (ltr, rem)) : isQuizLetter ltr = true := by
  unfold quizAns at h
  obtain ⟨u, _, hk⟩ := greedyWS_exists h
  cases u with
  | nil => simp at hk
  | cons c r =>
    simp only at hk
    split at hk
    · rename_i hc
      simp only [Option.some_inj, Prod.mk.injEq] at hk
      rw [← hk.1]
      assumption
    · exact absurd hk (by simp)

/-- The letter captured by a successful quiz match satisfies `[A-D]`. -/
theorem matchQuizAt_letter {s : List Char}
    {g1 g2 g3 g4 g5 : List Char} {ltr : Char} {rem : List Char}
    (h : matchQuizAt s = some (g1, g2, g3, g4, g5, ltr, rem)) :
    isQuizLetter ltr = true := by
  unfold matchQuizAt at h
  split at h
  · exact absurd h (by simp)
  · unfold quizQ at h
    obtain ⟨u1, _, h1⟩ := greedyWS_exists h
    obtain ⟨u2, _, h2⟩ := lazyScan_exists h1
    unfold quizA at h2
    obtain ⟨u3, _, h3⟩ := greedyWS_exists h2
    obtain ⟨u4, _, h4⟩ := lazyScan_exists h3
    unfold quizB at h4
    obtain ⟨u5, _, h5⟩ := greedyWS_exists h4
    obtain ⟨u6, _, h6⟩ := lazyScan_exists h5
    unfold quizC at h6
    obtain ⟨u7, _, h7⟩ := greedyWS_exists h6
    obtain ⟨u8, _, h8⟩ := lazyScan_exists h7
    unfold quizD at h8
    obtain ⟨u9, _, h9⟩ := greedyWS_exists h8
    obtain ⟨u10, _, h10⟩ := lazyScan_exists h9
    exact quizAns_letter h10

/-- Every letter in the quiz scan satisfies `[A-D]`. -/
theorem quizScanF_letter : ∀ (fuel : Nat) (s : List Char) m,
    m ∈ quizScanF fuel s → isQuizLetter m.2.2.2.2.2 = true := by
  intro fuel
  induction fuel with
  | zero =>
    intro s m hm
    cases s <;> simp [quizScanF] at hm
  | succ n ih =>
    intro s m hm
    cases s with
    | nil => simp [quizScanF] at hm
    | cons c rest =>
      rcases hq : matchQuizAt (c :: rest) with _ | ⟨g1, g2, g3, g4, g5, ltr, rem⟩
      · rw [show quizScanF (n + 1) (c :: rest) = quizScanF n rest by
          simp only [quizScanF, hq]] at hm
        exact ih rest m hm
      · rw [show quizScanF (n + 1) (c :: rest) =
            (g1, g2, g3, g4, g5, ltr) :: quizScanF n rem by
          simp only [quizScanF, hq]] at hm
        rcases List.mem_cons.mp hm with rfl | hm2
        · exact matchQuizAt_letter hq
        · exact ih rem m hm2

/-- Every letter produced by the quiz scan satisfies `[A-D]`. -/
theorem quizScan_letter {s : List Char} {m} (hm : m ∈ quizScan s) :
    isQuizLetter m.2.2.2.2.2 = true :=
  quizScanF_letter s.length s m hm

/-- C1: for every input text consisting of N well-formed flashcard blocks
("Question: <text>" then "Answer: <text>", with single-line fields that
contain a non-whitespace character) separated by blank lines, the flashcard
extractor returns Items with exactly N flashcards, in the order the blocks
appear, each with question and answer whitespace-trimmed and non-empty; in
particular the two-block example text yields exactly the two pairs
("What is 2+2?", "4") and ("Capital of France?", "Paris"). -/
theorem C1_flashcards_wellformed_blocks :
    (∀ cs : List (List Char × List Char), cs ≠ [] →
      (∀ p ∈ cs, goodField p.1 ∧ goodField p.2) →
      extractFlashcards (String.mk (renderCardsL cs)) =
          ExtractionOutcome.Items (cs.map
            (fun p => (String.mk (stripL p.1), String.mk (stripL p.2)))) ∧
        (cs.map (fun p => (String.mk (stripL p.1), String.mk (stripL p.2)))).length
          = cs.length ∧
        ∀ p ∈ cs, stripL p.1 ≠ [] ∧ stripL p.2 ≠ []) ∧
    extractFlashcards
        "Question: What is 2+2?\nAnswer: 4\n\nQuestion: Capital of France?\nAnswer: Paris" =
      ExtractionOutcome.Items [("What is 2+2?", "4"), ("Capital of France?", "Paris")] := by
  constructor
  · intro cs hne h
    refine ⟨extractFlashcards_eq_items cs rfl hne h, List.length_map _ _, ?_⟩
    intro p hp
    exact ⟨stripL_ne_nil (h p hp).1.2, stripL_ne_nil (h p hp).2.2⟩
  · decide

/-- Witness for C1 at a concrete one-block input. -/
theorem C1_flashcards_wellformed_blocks_witness :
    extractFlashcards (String.mk (renderCardsL [("ab".toList, "cd".toList)])) =
      ExtractionOutcome.Items [("ab", "cd")] := by
  have h := (C1_flashcards_wellformed_blocks.1 [("ab".toList, "cd".toList)]
    (by decide) (by decide)).1
  rw [h]
  decide

/-- C2 counterexample: on a text whose FIRST block is missing its C) line
and whose second block is well formed, the extractor does not exclude the
malformed block and extract the good one; instead the lazy DOTALL groups
overshoot across the block boundary and produce a single merged item that
starts at the question of the malformed block and swallows the well-formed
block. -/
theorem C2_quiz_missingC_counterexample :
    extractQuiz "Question: bq\nA) ba\nB) bb\nD) bd\nAnswer: A\n\nQuestion: gq\nA) ga\nB) gb\nC) gc\nD) gd\nAnswer: B" ≠
      ExtractionOutcome.Items
        [⟨"gq", [("A", "ga"), ("B", "gb"), ("C", "gc"), ("D", "gd")], "B"⟩] ∧
    extractQuiz "Question: bq\nA) ba\nB) bb\nD) bd\nAnswer: A\n\nQuestion: gq\nA) ga\nB) gb\nC) gc\nD) gd\nAnswer: B" =
      ExtractionOutcome.Items
        [⟨"bq", [("A", "ba"), ("B", "bb\nD) bd\nAnswer: A\n\nQuestion: gq\nA) ga\nB) gb"),
          ("C", "gc"), ("D", "gd")], "B"⟩] := by
  constructor
  · decide
  · decide

/-- C2 amended: when the block missing its C) line is the LAST block of the
text (nothing matchable follows it), it is excluded from the result and
every preceding well-formed block is still extracted, in order. -/
theorem C2_quiz_missingC_trailing (zs : List QuizSrc) (hne : zs ≠ [])
    (h : ∀ z ∈ zs, goodSrc z) (q a b d : List Char) (ltr : Char)
    (hq : ∀ c ∈ q, c ≠ '\n') (ha : ∀ c ∈ a, c ≠ '\n') (hb : ∀ c ∈ b, c ≠ '\n')
    (hd : ∀ c ∈ d, c ≠ '\n') (hl : isQuizLetter ltr = true) :
    extractQuiz (String.mk (renderQuizBlocksL zs ++ '\n' :: '\n' ::
        renderQuizBadL q a b d ltr)) =
      ExtractionOutcome.Items (zs.map quizItemOfSrc) :=
  extractQuiz_blocks_badlast zs hne h hq ha hb hd hl

/-- Witness for the amended C2 at a concrete two-block input whose second
block is missing its C) line. -/
theorem C2_quiz_missingC_trailing_witness :
    extractQuiz (String.mk (renderQuizBlocksL
        [⟨"gq".toList, "ga".toList, "gb".toList, "gc".toList, "gd".toList, 'B'⟩] ++
        '\n' :: '\n' ::
        renderQuizBadL "bq".toList "ba".toList "bb".toList "bd".toList 'A')) =
      ExtractionOutcome.Items
        [⟨"gq", [("A", "ga"), ("B", "gb"), ("C", "gc"), ("D", "gd")], "B"⟩] := by
  rw [C2_quiz_missingC_trailing
    [⟨"gq".toList, "ga".toList, "gb".toList, "gc".toList, "gd".toList, 'B'⟩]
    (List.cons_ne_nil _ _) (by decide) "bq".toList "ba".toList "bb".toList
    "bd".toList 'A' (by decide) (by decide) (by decide) (by decide) (by decide)]
  decide

/-- C3: whenever the extraction pattern finds zero matches, both extractors
return Empty on whitespace-only text and Unparsed carrying the original raw
text on text with any non-whitespace character. -/
theorem C3_zero_matches_empty_vs_unparsed (t : String) :
    (flashScan t.toList = [] →
      (stripL t.toList = [] → extractFlashcards t = ExtractionOutcome.Empty) ∧
      (stripL t.toList ≠ [] → extractFlashcards t = ExtractionOutcome.Unparsed t)) ∧
    (quizScan t.toList = [] →
      (stripL t.toList = [] → extractQuiz t = ExtractionOutcome.Empty) ∧
      (stripL t.toList ≠ [] → extractQuiz t = ExtractionOutcome.Unparsed t)) := by
  constructor
  · intro hscan
    have hscan2 : flashScan t.data = [] := hscan
    constructor
    · intro hstrip
      have hstrip2 : stripL t.data = [] := hstrip
      simp [extractFlashcards, hscan2, hstrip2]
    · intro hstrip
      have hstrip2 : stripL t.data ≠ [] := hstrip
      simp [extractFlashcards, hscan2, List.isEmpty_iff, hstrip2]
  · intro hscan
    have hscan2 : quizScan t.data = [] := hscan
    constructor
    · intro hstrip
      have hstrip2 : stripL t.data = [] := hstrip
      simp [extractQuiz, hscan2, hstrip2]
    · intro hstrip
      have hstrip2 : stripL t.data ≠ [] := hstrip
      simp [extractQuiz, hscan2, List.isEmpty_iff, hstrip2]

/-- Witness for C3: a whitespace-only text gives Empty, a non-matching
non-whitespace text gives Unparsed with the raw text, for both
extractors. -/
theorem C3_zero_matches_empty_vs_unparsed_witness :
    extractFlashcards "  \n " = ExtractionOutcome.Empty ∧
    extractFlashcards "no cards here" = ExtractionOutcome.Unparsed "no cards here" ∧
    extractQuiz "  \n " = ExtractionOutcome.Empty ∧
    extractQuiz "no quiz here" = ExtractionOutcome.Unparsed "no quiz here" :=
  ⟨((C3_zero_matches_empty_vs_unparsed "  \n ").1 (by decide)).1 (by decide),
   ((C3_zero_matches_empty_vs_unparsed "no cards here").1 (by decide)).2 (by decide),
   ((C3_zero_matches_empty_vs_unparsed "  \n ").2 (by decide)).1 (by decide),
   ((C3_zero_matches_empty_vs_unparsed "no quiz here").2 (by decide)).2 (by decide)⟩

/-- C5: round-trip — rendering any non-empty sequence of flashcards (with
single-line, non-blank fields) into the exact expected grammar and
extracting recovers exactly those pairs in order, up to whitespace
trimming. -/
theorem C5_flashcards_roundtrip (cs : List (String × String)) (hne : cs ≠ [])
    (h : ∀ p ∈ cs, goodField p.1.toList ∧ goodField p.2.toList) :
    extractFlashcards (renderCards cs) =
      ExtractionOutcome.Items (cs.map
        (fun p => (String.mk (stripL p.1.toList), String.mk (stripL p.2.toList)))) := by
  have h2 : ∀ p ∈ cs.map (fun p => (p.1.toList, p.2.toList)),
      goodField p.1 ∧ goodField p.2 := by
    intro p hp
    rw [List.mem_map] at hp
    obtain ⟨x, hx, rfl⟩ := hp
    exact h x hx
  have key := extractFlashcards_eq_items (cs.map (fun p => (p.1.toList, p.2.toList)))
    (renderCards_toList cs) (by simpa using hne) h2
  rw [List.map_map] at key
  exact key

/-- Witness for C5 at a concrete two-flashcard input. -/
theorem C5_flashcards_roundtrip_witness :
    extractFlashcards (renderCards [("q1", "a1"), ("q2", "a2")]) =
      ExtractionOutcome.Items [("q1", "a1"), ("q2", "a2")] := by
  rw [C5_flashcards_roundtrip [("q1", "a1"), ("q2", "a2")] (by decide) (by decide)]
  decide

/-- C10: the flashcard pattern only matches an `Answer:` marker immediately
preceded by a newline — on any text in which no `Answer:` (up to case)
directly follows a newline and which is not whitespace-only, the extractor
finds zero matches and returns Unparsed with the raw text rather than a
flashcard. -/
theorem C10_answer_marker_needs_newline (t : String)
    (h : noOccB answerMark t.toList = true) (hws : stripL t.toList ≠ []) :
    flashScan t.toList = [] ∧
    extractFlashcards t = ExtractionOutcome.Unparsed t := by
  have hscan := flashScan_noOcc (noOccB_noOccP h)
  refine ⟨hscan, ?_⟩
  have hscan2 : flashScan t.data = [] := hscan
  have hws2 : stripL t.data ≠ [] := hws
  simp [extractFlashcards, hscan2, List.isEmpty_iff, hws2]

/-- Witness for C10 at the example input of the claim, whose markers share one
line. -/
theorem C10_answer_marker_needs_newline_witness :
    flashScan "Question: Q Answer: A".toList = [] ∧
    extractFlashcards "Question: Q Answer: A" =
      ExtractionOutcome.Unparsed "Question: Q Answer: A" :=
  C10_answer_marker_needs_newline "Question: Q Answer: A" (by decide) (by decide)

/-- When the gateway text is a recognized failure string,
`generate_flashcards` returns it unchanged without extracting. -/
theorem generate_flashcards_err {text : String}
    {call : Except String GenResponse} (htext : text ≠ "")
    (hpre : isErrorText (generate_with_gemini call) = true) :
    generate_flashcards text call = Sum.inl (generate_with_gemini call) := by
  simp [generate_flashcards, htext, hpre]

/-- When the gateway text is a recognized failure string, `generate_quiz`
returns it unchanged without extracting. -/
theorem generate_quiz_err {text : String}
    {call : Except String GenResponse} (htext : text ≠ "")
    (hpre : isErrorText (generate_with_gemini call) = true) :
    generate_quiz text call = Sum.inl (generate_with_gemini call) := by
  simp [generate_quiz, htext, hpre]

/-- C4: every quiz item the extractor returns has an options mapping keyed
by exactly A, B, C, D and an upper-cased correct-answer letter among those
keys; a well-formed block ending in `Answer: B` produces one item whose
answer equals "B". -/
theorem C4_quiz_item_invariant :
    (∀ (text : String) (l : List QuizItem),
      extractQuiz text = ExtractionOutcome.Items l →
      ∀ it ∈ l, it.options.map Prod.fst = ["A", "B", "C", "D"] ∧
        it.answer ∈ (["A", "B", "C", "D"] : List String)) ∧
    extractQuiz "Question: q\nA) w\nB) x\nC) y\nD) z\nAnswer: B" =
      ExtractionOutcome.Items
        [⟨"q", [("A", "w"), ("B", "x"), ("C", "y"), ("D", "z")], "B"⟩] := by
  constructor
  · intro text l hl it hit
    simp only [extractQuiz] at hl
    by_cases hemp : (List.map mkQuizItem (quizScan text.toList)).isEmpty = true
    · rw [if_pos hemp] at hl
      split_ifs at hl
    · rw [if_neg hemp] at hl
      rw [ExtractionOutcome.Items.injEq] at hl
      subst hl
      rw [List.mem_map] at hit
      obtain ⟨m, hm, rfl⟩ := hit
      constructor
      · simp [mkQuizItem]
      · have hql := quizScan_letter hm
        simp only [mkQuizItem]
        simp [isQuizLetter, or_assoc] at hql
        rcases hql with h | h | h | h | h | h | h | h <;> rw [h] <;> decide
  · decide

/-- Witness for the C4 invariant, at the item of the example block. -/
theorem C4_quiz_item_invariant_witness :
    (⟨"q", [("A", "w"), ("B", "x"), ("C", "y"), ("D", "z")], "B"⟩ :
        QuizItem).options.map Prod.fst = ["A", "B", "C", "D"] ∧
    (⟨"q", [("A", "w"), ("B", "x"), ("C", "y"), ("D", "z")], "B"⟩ :
        QuizItem).answer ∈ (["A", "B", "C", "D"] : List String) :=
  C4_quiz_item_invariant.1 "Question: q\nA) w\nB) x\nC) y\nD) z\nAnswer: B" _
    C4_quiz_item_invariant.2 _ (List.mem_singleton.mpr rfl)

/-- C6: the gateway classifies every service response into exactly one
outcome — Success with the text when content parts are present; with no
parts, Blocked when a block reason is present, else Stopped when the first
candidate finished for a non-normal reason, else Empty — and a Blocked
text of a Blocked outcome is returned by the extractor callers unchanged, never
treated as success text to parse. -/
theorem C6_gateway_classification (resp : GenResponse) :
    (resp.parts ≠ [] →
      genResultOf (Except.ok resp) = GenerationResult.Success resp.text ∧
      generate_with_gemini (Except.ok resp) = resp.text) ∧
    (∀ r, resp.parts = [] → resp.block_reason = some r →
      genResultOf (Except.ok resp) = GenerationResult.Blocked r ∧
      generate_with_gemini (Except.ok resp) =
        "Content generation blocked. Reason: " ++ r ∧
      ∀ text : String, text ≠ "" →
        generate_flashcards text (Except.ok resp) =
          Sum.inl ("Content generation blocked. Reason: " ++ r) ∧
        generate_quiz text (Except.ok resp) =
          Sum.inl ("Content generation blocked. Reason: " ++ r)) ∧
    (∀ cand cands, resp.parts = [] → resp.block_reason = none →
      resp.candidates = cand :: cands → cand.finish_reason ≠ "STOP" →
      genResultOf (Except.ok resp) = GenerationResult.Stopped cand.finish_reason ∧
      generate_with_gemini (Except.ok resp) =
        "Content generation stopped. Reason: " ++ cand.finish_reason) ∧
    (resp.parts = [] → resp.block_reason = none →
      (∀ cand, resp.candidates.head? = some cand → cand.finish_reason = "STOP") →
      genResultOf (Except.ok resp) = GenerationResult.EmptyResp ∧
      generate_with_gemini (Except.ok resp) =
        "Error: Received an empty response from the API.") := by
  refine ⟨?_, ?_, ?_, ?_⟩
  · intro hp
    have hp2 : resp.parts.isEmpty = false := by
      simp [List.isEmpty_iff, hp]
    exact ⟨by simp [genResultOf, hp2], by simp [generate_with_gemini, hp2]⟩
  · intro r hp hbr
    have hp2 : resp.parts.isEmpty = true := by simp [List.isEmpty_iff, hp]
    have hgw : generate_with_gemini (Except.ok resp) =
        "Content generation blocked. Reason: " ++ r := by
      simp [generate_with_gemini, hp2, hbr]
    refine ⟨by simp [genResultOf, hp2, hbr], hgw, ?_⟩
    intro text htext
    have hpre : isErrorText (generate_with_gemini (Except.ok resp)) = true := by
      rw [hgw]
      exact isErrorText_blocked r
    constructor
    · rw [generate_flashcards_err htext hpre, hgw]
    · rw [generate_quiz_err htext hpre, hgw]
  · intro cand cands hp hbr hcands hstop
    have hp2 : resp.parts.isEmpty = true := by simp [List.isEmpty_iff, hp]
    exact ⟨by simp [genResultOf, hp2, hbr, hcands, hstop],
      by simp [generate_with_gemini, hp2, hbr, hcands, hstop]⟩
  · intro hp hbr hstop
    have hp2 : resp.parts.isEmpty = true := by simp [List.isEmpty_iff, hp]
    cases hcands : resp.candidates with
    | nil =>
      exact ⟨by simp [genResultOf, hp2, hbr, hcands],
        by simp [generate_with_gemini, hp2, hbr, hcands]⟩
    | cons c cs =>
      have hc : c.finish_reason = "STOP" := hstop c (by simp [hcands])
      exact ⟨by simp [genResultOf, hp2, hbr, hcands, hc],
        by simp [generate_with_gemini, hp2, hbr, hcands, hc]⟩

/-- Witness for C6 at a concrete blocked response. -/
theorem C6_gateway_classification_witness :
    generate_with_gemini (Except.ok ⟨[], some "SAFETY", [], ""⟩) =
      "Content generation blocked. Reason: SAFETY" ∧
    generate_flashcards "some text"
        (Except.ok ⟨[], some "SAFETY", [], ""⟩) =
      Sum.inl "Content generation blocked. Reason: SAFETY" := by
  have h := (C6_gateway_classification ⟨[], some "SAFETY", [], ""⟩).2.1 "SAFETY"
    rfl rfl
  constructor
  · rw [h.2.1]
    decide
  · rw [(h.2.2 "some text" (by decide)).1]
    decide

/-- C7: every exception raised inside the gateway call is converted to the
transport-error string carrying the exception message verbatim; the
underlying exception never propagates (the gateway is total and
string-valued on the error case). -/
theorem C7_gateway_transport_error (e : String) :
    generate_with_gemini (Except.error e) =
      "An error occurred during generation: " ++ e ∧
    genResultOf (Except.error e) = GenerationResult.TransportError e :=
  ⟨rfl, rfl⟩

/-- Witness for C7 at a concrete exception message. -/
theorem C7_gateway_transport_error_witness :
    generate_with_gemini (Except.error "socket timeout") =
      "An error occurred during generation: socket timeout" := by
  rw [(C7_gateway_transport_error "socket timeout").1]
  decide

/-- C8: with empty source material (for summary, flashcards, quiz or
question-answering), or an empty question for question-answering, the
operation returns its fixed instructional message independently of the
gateway — the gateway is never invoked. -/
theorem C8_preflight_validation (call : Except String GenResponse)
    (question : String) :
    generate_summary "" call = "Please provide some text to summarize." ∧
    generate_flashcards "" call =
      Sum.inl "Please provide some text to generate flashcards from." ∧
    generate_quiz "" call =
      Sum.inl "Please provide some text to generate a quiz from." ∧
    generate_answer "" question call = "Please provide study material first." ∧
    (∀ ctx : String, ctx ≠ "" →
      generate_answer ctx "" call = "Please enter a question.") := by
  refine ⟨by simp [generate_summary], by simp [generate_flashcards],
    by simp [generate_quiz], by simp [generate_answer], ?_⟩
  intro ctx hctx
  simp [generate_answer, hctx]

/-- Witness for C8 at a concrete call outcome. -/
theorem C8_preflight_validation_witness :
    generate_summary "" (Except.error "down") =
      "Please provide some text to summarize." ∧
    generate_answer "material" "" (Except.error "down") =
      "Please enter a question." :=
  ⟨(C8_preflight_validation (Except.error "down") "q").1,
   (C8_preflight_validation (Except.error "down") "q").2.2.2.2 "material"
     (by decide)⟩

/-- C9: whenever the gateway text begins with one of the failure prefixes
"An error occurred", "Content generation" or "Error:", both
`generate_flashcards` and `generate_quiz` return that text unchanged as a
failure string and never apply the extraction grammar to it — even when
well-formed blocks follow the prefix. -/
theorem C9_error_prefix_passthrough (text : String)
    (call : Except String GenResponse) (htext : text ≠ "")
    (hpre : isErrorText (generate_with_gemini call) = true) :
    generate_flashcards text call = Sum.inl (generate_with_gemini call) ∧
    generate_quiz text call = Sum.inl (generate_with_gemini call) :=
  ⟨generate_flashcards_err htext hpre, generate_quiz_err htext hpre⟩

/-- Witness for C9: a gateway text that starts with "Error:" but contains a
well-formed flashcard block is passed through unparsed. -/
theorem C9_error_prefix_passthrough_witness :
    generate_flashcards "study material"
        (Except.ok ⟨["p"], none, [], "Error: oops\n\nQuestion: q\nAnswer: a"⟩) =
      Sum.inl "Error: oops\n\nQuestion: q\nAnswer: a" := by
  rw [(C9_error_prefix_passthrough "study material"
    (Except.ok ⟨["p"], none, [], "Error: oops\n\nQuestion: q\nAnswer: a"⟩)
    (by decide) (by decide)).1]
  decide
